import Mathlib

/-!
# Verification of the KafNafParserPy element/collection layer

A shallow embedding of `KafNafParserPy/element.py` and the parts of
`KafNafParserPy/term_data.py` needed for the claims.  XML nodes are modelled
by a heap (a function from node identifiers to node data) so that the
reference semantics of `lxml` — where the collection's index holds references
into the live tree and in-place attribute mutation is visible through every
reference — is captured faithfully.  Python dictionaries and `lxml` attribute
maps are modelled as insertion-ordered association lists.
-/

set_option autoImplicit false

namespace KafNaf

variable {α : Type} {β : Type}

/-- Lookup in an association list: first binding of the key, if any.
Models Python `d[k]` / lxml `node.get(k)` (which returns `None` when absent). -/
def alist_get [DecidableEq α] : List (α × β) → α → Option β
  | [], _ => none
  | p :: d, k => if p.1 = k then some p.2 else alist_get d k

/-- Key membership test.  Models Python `k in d`. -/
def alist_mem [DecidableEq α] (d : List (α × β)) (k : α) : Bool :=
  (alist_get d k).isSome

/-- Insert-or-replace: models Python `d[k] = v` and lxml `node.set(k, v)`,
which overwrite an existing binding in place and append a fresh one. -/
def alist_set [DecidableEq α] : List (α × β) → α → β → List (α × β)
  | [], k, v => [(k, v)]
  | p :: d, k, v => if p.1 = k then (k, v) :: d else p :: alist_set d k v

/-- Deletion: models Python `del d[k]` / lxml `del node.attrib[k]`, which
raises `KeyError` when the key is absent — hence the `Option` result. -/
def alist_del [DecidableEq α] : List (α × β) → α → Option (List (α × β))
  | [], _ => none
  | p :: d, k =>
    if p.1 = k then some d
    else (alist_del d k).map (fun d2 => p :: d2)

@[simp] theorem alist_get_nil [DecidableEq α] (k : α) :
    alist_get ([] : List (α × β)) k = none := rfl

@[simp] theorem alist_get_cons [DecidableEq α] (p : α × β) (d : List (α × β)) (k : α) :
    alist_get (p :: d) k = if p.1 = k then some p.2 else alist_get d k := rfl

theorem alist_get_set [DecidableEq α] (d : List (α × β)) (k : α) (v : β) (k2 : α) :
    alist_get (alist_set d k v) k2 = if k2 = k then some v else alist_get d k2 := by
  induction d with
  | nil =>
    simp only [alist_set, alist_get]
    by_cases h : k2 = k
    · subst h; simp
    · rw [if_neg (fun hh : k = k2 => h hh.symm), if_neg h]
  | cons p d ih =>
    by_cases hp : p.1 = k
    · by_cases h : k2 = k
      · subst h
        simp [alist_set, alist_get, hp]
      · simp only [alist_set, hp, if_true, alist_get]
        rw [if_neg (fun hh : k = k2 => h hh.symm), if_neg h,
          if_neg (fun hh : k = k2 => h hh.symm)]
    · simp only [alist_set, hp, if_false, alist_get, ih]
      by_cases h : k2 = k
      · subst h; simp [hp]
      · simp [h]

theorem alist_get_append [DecidableEq α] (d e : List (α × β)) (k : α) :
    alist_get (d ++ e) k =
      match alist_get d k with
      | some v => some v
      | none => alist_get e k := by
  induction d with
  | nil => simp [alist_get]
  | cons p d ih =>
    by_cases hp : p.1 = k <;> simp [alist_get, hp, ih]

theorem alist_set_fresh [DecidableEq α] (d : List (α × β)) (k : α) (v : β)
    (h : alist_get d k = none) : alist_set d k v = d ++ [(k, v)] := by
  induction d with
  | nil => rfl
  | cons p d ih =>
    by_cases hp : p.1 = k
    · simp [alist_get, hp] at h
    · simp [alist_get, hp] at h
      simp [alist_set, hp, ih h]

theorem alist_get_none_of_key_not_mem [DecidableEq α] (d : List (α × β)) (k : α)
    (h : k ∉ d.map Prod.fst) : alist_get d k = none := by
  induction d with
  | nil => rfl
  | cons p d ih =>
    simp only [List.map_cons, List.mem_cons, not_or] at h
    rw [alist_get_cons, if_neg (fun hh : p.1 = k => h.1 hh.symm), ih h.2]

/-- After a successful `del`, with unique keys: the deleted key is gone and
every other key is untouched. -/
theorem alist_del_get [DecidableEq α] (d : List (α × β)) (k : α) (d2 : List (α × β))
    (hnd : (d.map Prod.fst).Nodup) (h : alist_del d k = some d2) (k2 : α) :
    alist_get d2 k2 = if k2 = k then none else alist_get d k2 := by
  induction d generalizing d2 with
  | nil => simp [alist_del] at h
  | cons p d ih =>
    simp only [List.map_cons, List.nodup_cons] at hnd
    by_cases hp : p.1 = k
    · simp only [alist_del, hp, if_true] at h
      cases h
      by_cases h2 : k2 = k
      · subst h2; subst hp
        simp [alist_get_none_of_key_not_mem _ _ hnd.1]
      · rw [if_neg h2, alist_get_cons,
          if_neg (fun hh : p.1 = k2 => h2 (hp.symm.trans hh).symm)]
    · simp only [alist_del, hp, if_false] at h
      cases hdel : alist_del d k with
      | none =>
        rw [hdel] at h
        exact Option.noConfusion h
      | some d3 =>
        rw [hdel] at h
        simp only [Option.map_some'] at h
        cases h
        by_cases h2 : k2 = k
        · subst h2
          simp [alist_get, hp, ih _ hnd.2 hdel]
        · by_cases hpk : p.1 = k2
          · simp [alist_get, hpk, h2]
          · simp [alist_get, hpk, h2, ih _ hnd.2 hdel]

theorem alist_del_isSome [DecidableEq α] (d : List (α × β)) (k : α) :
    (alist_del d k).isSome = (alist_get d k).isSome := by
  induction d with
  | nil => simp [alist_del, alist_get]
  | cons p d ih =>
    by_cases hp : p.1 = k <;> simp [alist_del, alist_get, hp, ih]

/-! ## The tree model

An `lxml` element is identified by a `Nat` (its object identity); the heap
maps each identifier to the node's data: tag, attribute map, and the ordered
list of its direct children (by identifier). -/

/-- The data stored at one XML node: tag name, attributes, direct children. -/
structure NodeData where
  tag : String
  attrib : List (String × String)
  children : List Nat
deriving DecidableEq, Repr

/-- The node store: object identity (a `Nat`) to node data. -/
def Heap : Type := Nat → NodeData

/-- In-place mutation of one node, as seen through every reference to it. -/
def hupd (h : Heap) (i : Nat) (nd : NodeData) : Heap :=
  fun j => if j = i then nd else h j

@[simp] theorem hupd_same (h : Heap) (i : Nat) (nd : NodeData) :
    hupd h i nd i = nd := by simp [hupd]

theorem hupd_other (h : Heap) (i : Nat) (nd : NodeData) (j : Nat) (hj : j ≠ i) :
    hupd h i nd j = h j := by simp [hupd, hj]

/-- `node.findall(tag)` with a plain tag: the direct children carrying that
tag, in document order. -/
def findall (h : Heap) (n : Nat) (tag : String) : List Nat :=
  (h n).children.filter (fun c => decide ((h c).tag = tag))

/-- `node.find(tag)`: first direct child with the tag, or `None`. -/
def find_one (h : Heap) (n : Nat) (tag : String) : Option Nat :=
  ((h n).children.filter (fun c => decide ((h c).tag = tag))).head?

/-- Helper for `prevOf`: scan with the previous element at hand. -/
def prevAux : Nat → List Nat → Nat → Option Nat
  | _, [], _ => none
  | a, b :: rest, x => if b = x then some a else prevAux b rest x

/-- `node.getprevious()` relative to a parent's child list: the sibling
immediately before the first occurrence of `x`, if any. -/
def prevOf : List Nat → Nat → Option Nat
  | [], _ => none
  | a :: rest, x => prevAux a rest x

/-! ## KafNafElement (element.py lines 6-47) -/

/-- The per-entity-kind class attributes of `KafNafElement`
(`element_name`, `naf_identifier`, `kaf_identifier`). -/
structure ElemClass where
  element_name : String
  naf_identifier : String
  kaf_identifier : String
deriving DecidableEq, Repr

/-- A `KafNafElement` instance: its class, the wrapped node reference
(`self.node`) and the dialect flag (`self.type`). -/
structure ElemV where
  cls : ElemClass
  nid : Nat
  type : String
deriving DecidableEq, Repr

/-- `KafNafElement.get_id` (element.py lines 27-36): reads the attribute
selected by the dialect; any other dialect value falls through and Python
implicitly returns `None`. -/
def elem_get_id (h : Heap) (e : ElemV) : Option String :=
  if e.type = "NAF" then alist_get (h e.nid).attrib e.cls.naf_identifier
  else if e.type = "KAF" then alist_get (h e.nid).attrib e.cls.kaf_identifier
  else none

/-- `KafNafElement.set_id` (element.py lines 38-47): writes the attribute
selected by the dialect; any other dialect value falls through, mutating
nothing. -/
def elem_set_id (h : Heap) (e : ElemV) (i : String) : Heap :=
  if e.type = "NAF" then
    hupd h e.nid { h e.nid with attrib := alist_set (h e.nid).attrib e.cls.naf_identifier i }
  else if e.type = "KAF" then
    hupd h e.nid { h e.nid with attrib := alist_set (h e.nid).attrib e.cls.kaf_identifier i }
  else h

/-- Python's rendering of an optional string inside an f-string:
`None` prints as `"None"`. -/
def pyStr : Option String → String
  | none => "None"
  | some s => s

/-! ## KafNafElements (element.py lines 50-123) -/

/-- The class attributes of a `KafNafElements` subclass: the inherited
`KafNafElement` configuration (`element_name`, `naf_identifier`,
`kaf_identifier` — the identifiers `to_kaf`/`to_naf` read through `self`)
plus `child_element_name` and the `child_class` configuration. -/
structure LayerClass where
  cls : ElemClass
  child_element_name : String
  child_cls : ElemClass
deriving DecidableEq, Repr

/-- A `KafNafElements` instance: heap, wrapped container node (`self.node`),
dialect flag (`self.type`) and the id index (`self.idx`), whose keys are
`get_id` results — hence `Option String` (an entity without an id attribute
yields the key `None`). -/
structure CollState where
  heap : Heap
  root : Nat
  type : String
  idx : List (Option String × Nat)

/-- `KafNafElements.__get_child_nodes` (element.py lines 64-65):
`self.node.findall(self.child_element_name)`. -/
def child_nodes (cfg : LayerClass) (h : Heap) (root : Nat) : List Nat :=
  findall h root cfg.child_element_name

/-- The view `child_class(n, type)` built by the collection's methods. -/
def child_view (cfg : LayerClass) (n : Nat) (t : String) : ElemV :=
  { cls := cfg.child_cls, nid := n, type := t }

/-- `KafNafElements.__init__` (element.py lines 57-62): scan the matching
children and index each under `child_class(child_node, type).get_id()`;
a later child with the same id overwrites the earlier entry. -/
def mkCollection (cfg : LayerClass) (h : Heap) (root : Nat) (t : String) : CollState :=
  { heap := h, root := root, type := t,
    idx := (child_nodes cfg h root).foldl
      (fun d n => alist_set d (elem_get_id h (child_view cfg n t)) n) [] }

/-- `KafNafElements.__iter__` (element.py lines 67-69): one fresh view per
current matching child, in document order. -/
def coll_iter (cfg : LayerClass) (s : CollState) : List ElemV :=
  (child_nodes cfg s.heap s.root).map (fun n => child_view cfg n s.type)

/-- `KafNafElements.get_child` (element.py lines 91-98): index lookup; a hit
wraps the stored node reference in a fresh view under the current dialect. -/
def get_child (cfg : LayerClass) (s : CollState) (i : String) : Option ElemV :=
  match alist_get s.idx (some i) with
  | some n => some (child_view cfg n s.type)
  | none => none

/-- `KafNafElements.add_child` (element.py lines 100-108): reject a
duplicate id before mutating anything; otherwise append the child's node to
the container and index it (re-reading `child.get_id()`, as the source
does on line 107). -/
def add_child (s : CollState) (c : ElemV) : Except String CollState :=
  if alist_mem s.idx (elem_get_id s.heap c) then
    Except.error ("Term with id " ++ pyStr (elem_get_id s.heap c) ++ " already exists!")
  else
    let h1 : Heap := hupd s.heap s.root
      { s.heap s.root with children := (s.heap s.root).children ++ [c.nid] }
    Except.ok { s with heap := h1, idx := alist_set s.idx (elem_get_id h1 c) c.nid }

/-- A Python `set` of nodes, as an insertion-ordered duplicate-free list. -/
def setAdd (l : List Nat) (n : Nat) : List Nat :=
  if n ∈ l then l else l ++ [n]

/-- The loop body of `remove_children`'s collection phase (element.py lines
115-121): if the child's id is among the requested ids, add its node and —
when present — its previous sibling to the set. -/
def ntr_step (s : CollState) (ids : List String)
    (acc : List Nat) (child : ElemV) : List Nat :=
  match elem_get_id s.heap child with
  | some i =>
    if i ∈ ids then
      let acc1 := setAdd acc child.nid
      match prevOf (s.heap s.root).children child.nid with
      | some p => setAdd acc1 p
      | none => acc1
    else acc
  | none => acc

/-- The collection phase of `remove_children` (element.py lines 114-121):
walk the matching children, collecting nodes to remove into a set. -/
def nodes_to_remove (cfg : LayerClass) (s : CollState) (ids : List String) : List Nat :=
  (coll_iter cfg s).foldl (ntr_step s ids) []

/-- The removal phase (element.py lines 122-123): `self.node.remove(node)`
for each collected node; `lxml` raises `ValueError` when the node is not a
current child. -/
def remove_all (children : List Nat) : List Nat → Except String (List Nat)
  | [] => Except.ok children
  | n :: rest =>
    if n ∈ children then remove_all (children.erase n) rest
    else Except.error "ValueError: Element is not a child of this node."

/-- `KafNafElements.remove_children` (element.py lines 110-123).  Note that
the index is not touched. -/
def remove_children (cfg : LayerClass) (s : CollState) (ids : List String) :
    Except String CollState :=
  match remove_all (s.heap s.root).children (nodes_to_remove cfg s ids) with
  | Except.ok ch2 =>
    Except.ok { s with heap := hupd s.heap s.root { s.heap s.root with children := ch2 } }
  | Except.error e => Except.error e

/-- The conversion loop body (element.py lines 77-79 and 87-89) acting on
one node's data: `node.set(writeA, node.get(readA)); del node.attrib[delA]`.
`lxml` raises `TypeError` when `node.get(readA)` is `None`, and `KeyError`
when the deleted attribute is absent. -/
def conv1 (writeA readA delA : String) (nd : NodeData) : Except String NodeData :=
  match alist_get nd.attrib readA with
  | none => Except.error "TypeError: Argument must be bytes or unicode, got NoneType."
  | some v =>
    match alist_del (alist_set nd.attrib writeA v) delA with
    | none => Except.error "KeyError"
    | some a2 => Except.ok { nd with attrib := a2 }

/-- The conversion loop: apply `conv1` to each matching child in place,
propagating the first exception. -/
def conv_nodes (writeA readA delA : String) : List Nat → Heap → Except String Heap
  | [], h => Except.ok h
  | n :: rest, h =>
    match conv1 writeA readA delA (h n) with
    | Except.error e => Except.error e
    | Except.ok nd2 => conv_nodes writeA readA delA rest (hupd h n nd2)

/-- `KafNafElements.to_kaf` (element.py lines 71-79): only acts when the
dialect is NAF; writes `self.kaf_identifier` from `self.naf_identifier` and
deletes `self.naf_identifier` on every matching child. -/
def to_kaf (cfg : LayerClass) (s : CollState) : Except String CollState :=
  if s.type = "NAF" then
    match conv_nodes cfg.cls.kaf_identifier cfg.cls.naf_identifier cfg.cls.naf_identifier
        (child_nodes cfg s.heap s.root) s.heap with
    | Except.ok h2 => Except.ok { s with type := "KAF", heap := h2 }
    | Except.error e => Except.error e
  else Except.ok s

/-- `KafNafElements.to_naf` (element.py lines 81-89): only acts when the
dialect is KAF; writes `self.naf_identifier` from `self.kaf_identifier` and
then deletes `self.naf_identifier` — the attribute it just wrote (line 89
of the source deletes `self.naf_identifier`, not `self.kaf_identifier`). -/
def to_naf (cfg : LayerClass) (s : CollState) : Except String CollState :=
  if s.type = "KAF" then
    match conv_nodes cfg.cls.naf_identifier cfg.cls.kaf_identifier cfg.cls.naf_identifier
        (child_nodes cfg s.heap s.root) s.heap with
    | Except.ok h2 => Except.ok { s with type := "NAF", heap := h2 }
    | Except.error e => Except.error e
  else Except.ok s

/-! ## The term layer (term_data.py) -/

/-- `Cterm` class attributes (term_data.py lines 20-22):
`element_name = 'term'`, `naf_identifier = 'id'`, `kaf_identifier = 'tid'`. -/
def CtermClass : ElemClass :=
  { element_name := "term", naf_identifier := "id", kaf_identifier := "tid" }

/-- Modelled from the spec: `CexternalReferences.add_external_reference`
(external_references_data.py, which is not under src/).  Per spec §4.3 the
references are grouped under one `externalReferences` wrapper node, and
adding a reference attaches its entry under the wrapper. -/
def extrefs_add (h : Heap) (w : Nat) (r : Nat) : Heap :=
  hupd h w { h w with children := (h w).children ++ [r] }

/-- Modelled from the spec: iterating a `CexternalReferences` wrapper
(external_references_data.py, not under src/) yields its reference entries
in document order. -/
def extrefs_entries (h : Heap) (w : Nat) : List Nat :=
  (h w).children

/-- `Cterm.add_external_reference` (term_data.py lines 185-198): find the
`externalReferences` wrapper; if absent, create a fresh wrapper node
(`CexternalReferences()` with no node makes a detached
`externalReferences` element) and append it to the term node; then add the
reference through the wrapper object.  `fresh` is the identity of the node
the constructor allocates. -/
def cterm_add_external_reference (h : Heap) (termNid : Nat) (refNid : Nat)
    (fresh : Nat) : Heap :=
  match find_one h termNid "externalReferences" with
  | some w => extrefs_add h w refNid
  | none =>
    let h1 : Heap := hupd h fresh { tag := "externalReferences", attrib := [], children := [] }
    let h2 : Heap := hupd h1 termNid
      { h1 termNid with children := (h1 termNid).children ++ [fresh] }
    extrefs_add h2 fresh refNid

/-- `Cterm.get_external_references` (term_data.py lines 208-217): for every
`externalReferences` child of the term node, yield all of its entries. -/
def get_external_references (h : Heap) (termNid : Nat) : List Nat :=
  (findall h termNid "externalReferences").foldr
    (fun w acc => extrefs_entries h w ++ acc) []

/-- `Cterms.add_external_reference` (term_data.py lines 258-270): if the id
is a key of the index, delegate to the `Cterm` wrapped around the indexed
node; otherwise print a warning (`'{term_id} not in self.idx'`) and change
nothing.  The second component is the printed warning line, if any. -/
def cterms_add_external_reference (s : CollState) (term_id : String)
    (refNid : Nat) (fresh : Nat) : CollState × Option String :=
  match alist_get s.idx (some term_id) with
  | some tn =>
    ({ s with heap := cterm_add_external_reference s.heap tn refNid fresh }, none)
  | none => (s, some (term_id ++ " not in self.idx"))

/-! ## Concrete fixtures -/

/-- A concrete layer configuration: a term layer whose collection-level
identifier attributes follow the `Cterm` convention. -/
def testCfg : LayerClass :=
  { cls := CtermClass, child_element_name := "term", child_cls := CtermClass }

/-- A document: node 0 is the container with the single term node 1
(NAF id `t1`); node 2 is a detached term node also carrying id `t1`;
node 3 is a detached term node with the fresh id `t2`. -/
def H0 : Heap := fun n =>
  if n = 0 then { tag := "terms", attrib := [], children := [1] }
  else if n = 1 then { tag := "term", attrib := [("id", "t1"), ("lemma", "run")], children := [] }
  else if n = 2 then { tag := "term", attrib := [("id", "t1")], children := [] }
  else if n = 3 then { tag := "term", attrib := [("id", "t2")], children := [] }
  else { tag := "", attrib := [], children := [] }

/-- The term layer over `H0`, dialect NAF. -/
def S0 : CollState := mkCollection testCfg H0 0 "NAF"

/-- A document with an empty container (node 0) and two detached term nodes
(1 and 2) carrying no id attribute at all. -/
def Hemp : Heap := fun n =>
  if n = 0 then { tag := "terms", attrib := [], children := [] }
  else if n = 1 then { tag := "term", attrib := [], children := [] }
  else if n = 2 then { tag := "term", attrib := [], children := [] }
  else { tag := "", attrib := [], children := [] }

/-- The term layer over the empty container, dialect NAF. -/
def Semp : CollState := mkCollection testCfg Hemp 0 "NAF"

/-- The state reached from `Semp` by adding the id-less term node 1:
the container now holds node 1 and the index maps `None` to it. -/
def SempAfterAdd : CollState :=
  { heap := hupd Hemp 0 { tag := "terms", attrib := [], children := [1] },
    root := 0, type := "NAF", idx := [(none, 1)] }

/-- The state reached from `S0` by adding the detached term node 3
(id `t2`). -/
def S0added : CollState :=
  { heap := hupd H0 0 { tag := "terms", attrib := [], children := [1, 3] },
    root := 0, type := "NAF", idx := [(some "t1", 1), (some "t2", 3)] }

/-- The state reached from `S0` by `remove_children(["t1"])`: the container
loses node 1 but the index still maps `t1` to it. -/
def S0removed : CollState :=
  { heap := hupd H0 0 { tag := "terms", attrib := [], children := [] },
    root := 0, type := "NAF", idx := [(some "t1", 1)] }

/-- The index invariant of spec §3 (Entity Collection, invariant 1): the
index holds exactly one entry per current matching child, in document
order, keyed by that child's id under the current dialect. -/
@[reducible] def coll_inv (cfg : LayerClass) (s : CollState) : Prop :=
  s.idx = (child_nodes cfg s.heap s.root).map
    (fun n => (elem_get_id s.heap (child_view cfg n s.type), n))

/-! ## Helper lemmas about the operations -/

/-- Mutating a node other than the one an element wraps does not change the
element's id. -/
theorem elem_get_id_hupd (h : Heap) (r : Nat) (nd : NodeData) (e : ElemV)
    (hne : e.nid ≠ r) : elem_get_id (hupd h r nd) e = elem_get_id h e := by
  simp [elem_get_id, hupd, hne]

/-- Under the NAF dialect, `get_id` reads the NAF identifier attribute. -/
theorem elem_get_id_naf (h : Heap) (cls : ElemClass) (nid : Nat) :
    elem_get_id h (ElemV.mk cls nid "NAF") = alist_get (h nid).attrib cls.naf_identifier := by
  unfold elem_get_id
  rw [if_pos rfl]

/-- Under the KAF dialect, `get_id` reads the KAF identifier attribute. -/
theorem elem_get_id_kaf (h : Heap) (cls : ElemClass) (nid : Nat) :
    elem_get_id h (ElemV.mk cls nid "KAF") = alist_get (h nid).attrib cls.kaf_identifier := by
  unfold elem_get_id
  rw [if_neg (by decide : ¬(("KAF" : String) = "NAF")), if_pos rfl]

/-! ## Claims -/

/-- C3: for every collection and every entity whose id is already a key of
the index, `add_child` fails with the duplicate-identifier error; since the
check precedes every mutation, the returned value is the bare error and no
successor state (with a changed tree or index) is produced. -/
theorem claim_c3_add_child_duplicate (s : CollState) (c : ElemV)
    (hdup : alist_mem s.idx (elem_get_id s.heap c) = true) :
    add_child s c =
      Except.error ("Term with id " ++ pyStr (elem_get_id s.heap c) ++ " already exists!") := by
  simp [add_child, hdup]

/-- Witness for C3: `S0` already indexes id `t1` (node 1), and adding the
detached term node 2, which also carries id `t1`, is rejected. -/
theorem claim_c3_add_child_duplicate_witness :
    alist_mem S0.idx (elem_get_id S0.heap (ElemV.mk CtermClass 2 "NAF")) = true ∧
    add_child S0 (ElemV.mk CtermClass 2 "NAF") =
      Except.error ("Term with id " ++
        pyStr (elem_get_id S0.heap (ElemV.mk CtermClass 2 "NAF")) ++ " already exists!") :=
  ⟨by decide, claim_c3_add_child_duplicate S0 (ElemV.mk CtermClass 2 "NAF") (by decide)⟩

/-- C9: for a view whose dialect flag is neither NAF nor KAF, `get_id`
falls off both branches and returns `None`, and `set_id` mutates nothing;
neither operation raises. -/
theorem claim_c9_foreign_dialect (h : Heap) (cls : ElemClass) (nid : Nat)
    (t : String) (i : String) (h1 : t ≠ "NAF") (h2 : t ≠ "KAF") :
    elem_get_id h (ElemV.mk cls nid t) = none ∧
    elem_set_id h (ElemV.mk cls nid t) i = h := by
  refine ⟨?_, ?_⟩
  · simp [elem_get_id, h1, h2]
  · simp [elem_set_id, h1, h2]

/-- Witness for C9, at dialect value `"DAF"` over the concrete heap `H0`. -/
theorem claim_c9_foreign_dialect_witness :
    ("DAF" ≠ "NAF" ∧ "DAF" ≠ "KAF") ∧
    (elem_get_id H0 (ElemV.mk CtermClass 1 "DAF") = none ∧
      elem_set_id H0 (ElemV.mk CtermClass 1 "DAF") "t9" = H0) :=
  ⟨⟨by decide, by decide⟩,
    claim_c9_foreign_dialect H0 CtermClass 1 "DAF" "t9" (by decide) (by decide)⟩

/-- C10: an entity without the dialect's id attribute is indexed under the
missing value `None`; a second id-less entity then collides with it, and
`add_child` raises the duplicate-identifier error reporting id `None`. -/
theorem claim_c10_none_id_collision (s : CollState) (c1 c2 : ElemV) (s2 : CollState)
    (hid1 : elem_get_id s.heap c1 = none)
    (hfree : alist_get s.idx none = none)
    (hnr : c1.nid ≠ s.root)
    (hadd : add_child s c1 = Except.ok s2)
    (hid2 : elem_get_id s2.heap c2 = none) :
    alist_get s2.idx none = some c1.nid ∧
    add_child s2 c2 = Except.error "Term with id None already exists!" := by
  have hmem : alist_mem s.idx (elem_get_id s.heap c1) = false := by
    simp [alist_mem, hid1, hfree]
  rw [add_child, hmem] at hadd
  simp only [Bool.false_eq_true, if_false, Except.ok.injEq] at hadd
  have hidx : s2.idx = alist_set s.idx none c1.nid := by
    rw [← hadd]
    rw [elem_get_id_hupd _ _ _ _ hnr, hid1]
  have hget : alist_get s2.idx none = some c1.nid := by
    rw [hidx, alist_get_set]
    simp
  refine ⟨hget, ?_⟩
  have hmem2 : alist_mem s2.idx none = true := by
    simp [alist_mem, hget]
  simp [add_child, hid2, hmem2, pyStr]

/-- Witness for C10: over the empty container, adding the id-less node 1
indexes it under `None`, and adding the id-less node 2 then fails. -/
theorem claim_c10_none_id_collision_witness :
    (elem_get_id Semp.heap (ElemV.mk CtermClass 1 "NAF") = none ∧
      alist_get Semp.idx none = none ∧
      (ElemV.mk CtermClass 1 "NAF").nid ≠ Semp.root ∧
      add_child Semp (ElemV.mk CtermClass 1 "NAF") = Except.ok SempAfterAdd ∧
      elem_get_id SempAfterAdd.heap (ElemV.mk CtermClass 2 "NAF") = none) ∧
    (alist_get SempAfterAdd.idx none = some 1 ∧
      add_child SempAfterAdd (ElemV.mk CtermClass 2 "NAF") =
        Except.error "Term with id None already exists!") :=
  ⟨⟨by decide, by decide, by decide, by rfl, by decide⟩,
    claim_c10_none_id_collision Semp (ElemV.mk CtermClass 1 "NAF")
      (ElemV.mk CtermClass 2 "NAF") SempAfterAdd (by decide) (by decide) (by decide)
      (by rfl) (by decide)⟩

/-- C1: the claimed `to_kaf`/`to_naf` round-trip does NOT restore the
original id attribute.  On the NAF collection `S0` (one term, id `t1`) both
conversions succeed, but `to_naf` (element.py line 89) deletes
`naf_identifier` — the attribute it has just written — instead of
`kaf_identifier`, so the final node carries `tid="t1"`, no `id` attribute,
and `get_id()` returns `None` instead of `"t1"`. -/
theorem claim_c1_roundtrip_bug :
    ∃ s1 s2 : CollState,
      to_kaf testCfg S0 = Except.ok s1 ∧
      to_naf testCfg s1 = Except.ok s2 ∧
      elem_get_id S0.heap (child_view testCfg 1 S0.type) = some "t1" ∧
      s1.type = "KAF" ∧
      elem_get_id s1.heap (child_view testCfg 1 s1.type) = some "t1" ∧
      s2.type = "NAF" ∧
      alist_get (s2.heap 1).attrib "id" = none ∧
      alist_get (s2.heap 1).attrib "tid" = some "t1" ∧
      elem_get_id s2.heap (child_view testCfg 1 s2.type) = none := by
  refine ⟨_, _, rfl, rfl, by decide, by decide, by decide, by decide, by decide,
    by decide, by decide⟩

/-- Counterexample to C2: on `S0`, `remove_children(["t1"])` removes the
node from the container but leaves the index entry for `t1` in place, so
`get_child("t1")` still returns a view instead of not-found. -/
theorem claim_c2_counterexample :
    ∃ s2 : CollState,
      remove_children testCfg S0 ["t1"] = Except.ok s2 ∧
      (s2.heap 0).children = [] ∧
      alist_get s2.idx (some "t1") = some 1 ∧
      get_child testCfg s2 "t1" = some (child_view testCfg 1 "NAF") := by
  refine ⟨_, rfl, by decide, by decide, by decide⟩

/-- C2 (amended): `add_child` preserves the index invariant, but
`remove_children` does not update the index at all — after it, the index
(and hence every `get_child` result, including for removed ids) is exactly
what it was before the call, so entries for removed ids are stale rather
than dropped. -/
theorem claim_c2_amended_index :
    (∀ (cfg : LayerClass) (s : CollState) (c : ElemV) (s2 : CollState),
      coll_inv cfg s →
      c.cls = cfg.child_cls →
      c.type = s.type →
      (s.heap c.nid).tag = cfg.child_element_name →
      c.nid ≠ s.root →
      s.root ∉ (s.heap s.root).children →
      c.nid ∉ (s.heap s.root).children →
      add_child s c = Except.ok s2 →
      coll_inv cfg s2) ∧
    (∀ (cfg : LayerClass) (s : CollState) (ids : List String) (s2 : CollState),
      remove_children cfg s ids = Except.ok s2 →
      s2.idx = s.idx ∧ s2.type = s.type ∧
      ∀ i : String, get_child cfg s2 i = get_child cfg s i) := by
  constructor
  · intro cfg s c s2 hinv hcls htype htag hnr hroot hnotin hadd
    by_cases hmem : alist_mem s.idx (elem_get_id s.heap c) = true
    · rw [add_child, if_pos hmem] at hadd
      exact absurd hadd (by simp)
    · have hmem2 : alist_mem s.idx (elem_get_id s.heap c) = false :=
        Bool.not_eq_true _ ▸ hmem
      simp only [add_child, hmem2, Bool.false_eq_true, if_false, Except.ok.injEq] at hadd
      subst hadd
      have hfresh : alist_get s.idx (elem_get_id s.heap c) = none := by
        cases ho : alist_get s.idx (elem_get_id s.heap c) with
        | none => rfl
        | some v =>
          simp [alist_mem, ho] at hmem2
      unfold coll_inv
      rw [elem_get_id_hupd _ _ _ _ hnr, alist_set_fresh _ _ _ hfresh]
      have hsub : ∀ n ∈ (s.heap s.root).children, n ≠ s.root := by
        intro n hn heq
        exact hroot (heq ▸ hn)
      have hchildren : child_nodes cfg
          (hupd s.heap s.root
            { s.heap s.root with children := (s.heap s.root).children ++ [c.nid] }) s.root
          = child_nodes cfg s.heap s.root ++ [c.nid] := by
        unfold child_nodes findall
        rw [hupd_same]
        simp only [List.filter_append]
        have h1 : List.filter (fun x => decide (((hupd s.heap s.root
            { s.heap s.root with children := (s.heap s.root).children ++ [c.nid] }) x).tag
              = cfg.child_element_name)) (s.heap s.root).children
            = List.filter (fun x => decide ((s.heap x).tag = cfg.child_element_name))
              (s.heap s.root).children := by
          apply List.filter_congr
          intro n hn
          rw [hupd_other _ _ _ _ (hsub n hn)]
        have h2 : List.filter (fun x => decide (((hupd s.heap s.root
            { s.heap s.root with children := (s.heap s.root).children ++ [c.nid] }) x).tag
              = cfg.child_element_name)) [c.nid] = [c.nid] := by
          simp [hupd_other _ _ _ _ hnr, htag]
        rw [h1, h2]
      rw [hchildren, List.map_append]
      have hmap : List.map (fun n => (elem_get_id
            (hupd s.heap s.root
              { s.heap s.root with children := (s.heap s.root).children ++ [c.nid] })
            (child_view cfg n s.type), n)) (child_nodes cfg s.heap s.root)
          = List.map (fun n => (elem_get_id s.heap (child_view cfg n s.type), n))
            (child_nodes cfg s.heap s.root) := by
        apply List.map_congr_left
        intro n hn
        have hnr2 : n ≠ s.root := hsub n (List.mem_of_mem_filter hn)
        rw [elem_get_id_hupd _ _ _ _ hnr2]
      rw [hmap, ← hinv]
      have hc : child_view cfg c.nid s.type = c := by
        cases c with
        | mk ccls cnid ctype =>
          simp only [child_view]
          simp only at hcls htype
          rw [hcls, htype]
      simp only [List.map_cons, List.map_nil, hc]
      rw [elem_get_id_hupd _ _ _ _ hnr]
  · intro cfg s ids s2 hrem
    unfold remove_children at hrem
    cases hra : remove_all (s.heap s.root).children (nodes_to_remove cfg s ids) with
    | ok ch2 =>
      rw [hra] at hrem
      simp only [Except.ok.injEq] at hrem
      subst hrem
      exact ⟨rfl, rfl, fun i => rfl⟩
    | error e =>
      rw [hra] at hrem
      exact absurd hrem (by simp)

/-- Witness for C2 (amended): instantiated on `S0`; adding the fresh term
node 3 (id `t2`) keeps the invariant, and removing `t1` leaves the index
and all `get_child` answers untouched. -/
theorem claim_c2_amended_index_witness :
    (coll_inv testCfg S0 ∧ add_child S0 (ElemV.mk CtermClass 3 "NAF") = Except.ok S0added ∧
      coll_inv testCfg S0added) ∧
    (remove_children testCfg S0 ["t1"] = Except.ok S0removed ∧
      S0removed.idx = S0.idx ∧
      get_child testCfg S0removed "t1" = get_child testCfg S0 "t1") :=
  ⟨⟨by decide, by rfl,
      claim_c2_amended_index.1 testCfg S0 (ElemV.mk CtermClass 3 "NAF") S0added
        (by decide) (by decide) (by decide) (by decide) (by decide) (by decide)
        (by decide) (by rfl)⟩,
    ⟨by rfl,
      (claim_c2_amended_index.2 testCfg S0 ["t1"] S0removed (by rfl)).1,
      (claim_c2_amended_index.2 testCfg S0 ["t1"] S0removed (by rfl)).2.2 "t1"⟩⟩

/-- The last element of the list whose key equals `k`, if any: the
document-order "last matching child" of claim C7. -/
def lastWithKey (key : Nat → Option String) (k : Option String) : List Nat → Option Nat
  | [] => none
  | n :: l =>
    match lastWithKey key k l with
    | some m => some m
    | none => if key n = k then some n else none

/-- Folding `alist_set` over a list realises last-write-wins: looking up `k`
afterwards finds the last list element keyed `k`, else whatever the initial
dictionary had. -/
theorem foldl_alist_set_get (key : Nat → Option String) (l : List Nat)
    (d0 : List (Option String × Nat)) (k : Option String) :
    alist_get (l.foldl (fun d n => alist_set d (key n) n) d0) k =
      match lastWithKey key k l with
      | some m => some m
      | none => alist_get d0 k := by
  induction l generalizing d0 with
  | nil => simp [lastWithKey]
  | cons n l ih =>
    rw [List.foldl_cons, ih]
    cases hl : lastWithKey key k l with
    | some m => simp [lastWithKey, hl]
    | none =>
      simp only [lastWithKey, hl]
      rw [alist_get_set]
      by_cases hk : key n = k
      · simp [hk]
      · rw [if_neg (fun hh : k = key n => hk hh.symm), if_neg hk]

/-- C7: constructing a collection over a container whose matching children
contain duplicate ids succeeds (construction is total and validates
nothing), and the index maps each id to the last matching child bearing it
in document order; `get_child` on such an id returns a view over that last
child. -/
theorem claim_c7_duplicate_ids_last_wins (cfg : LayerClass) (h : Heap) (root : Nat)
    (t : String) (i : String) (nid : Nat)
    (hlast : lastWithKey (fun n => elem_get_id h (child_view cfg n t)) (some i)
      (child_nodes cfg h root) = some nid) :
    alist_get (mkCollection cfg h root t).idx (some i) = some nid ∧
    get_child cfg (mkCollection cfg h root t) i = some (child_view cfg nid t) := by
  have hget : alist_get (mkCollection cfg h root t).idx (some i) = some nid := by
    show alist_get ((child_nodes cfg h root).foldl
      (fun d n => alist_set d (elem_get_id h (child_view cfg n t)) n) []) (some i) = some nid
    rw [foldl_alist_set_get (fun n => elem_get_id h (child_view cfg n t))
      (child_nodes cfg h root) [] (some i), hlast]
  refine ⟨hget, ?_⟩
  rw [get_child, hget]
  rfl

/-- A document whose container (node 0) has two term children, nodes 1 and
2, both carrying the same NAF id `t1`. -/
def Hdup : Heap := fun n =>
  if n = 0 then { tag := "terms", attrib := [], children := [1, 2] }
  else if n = 1 then { tag := "term", attrib := [("id", "t1"), ("lemma", "a")], children := [] }
  else if n = 2 then { tag := "term", attrib := [("id", "t1"), ("lemma", "b")], children := [] }
  else { tag := "", attrib := [], children := [] }

/-- Witness for C7: over `Hdup` the later duplicate (node 2) wins. -/
theorem claim_c7_duplicate_ids_last_wins_witness :
    lastWithKey (fun n => elem_get_id Hdup (child_view testCfg n "NAF")) (some "t1")
      (child_nodes testCfg Hdup 0) = some 2 ∧
    alist_get (mkCollection testCfg Hdup 0 "NAF").idx (some "t1") = some 2 ∧
    get_child testCfg (mkCollection testCfg Hdup 0 "NAF") "t1" =
      some (child_view testCfg 2 "NAF") :=
  ⟨by decide,
    (claim_c7_duplicate_ids_last_wins testCfg Hdup 0 "NAF" "t1" 2 (by decide)).1,
    (claim_c7_duplicate_ids_last_wins testCfg Hdup 0 "NAF" "t1" 2 (by decide)).2⟩

/-- Head of a list is a member. -/
theorem mem_of_head?_eq {l : List Nat} {w : Nat} (hf : l.head? = some w) : w ∈ l := by
  cases l with
  | nil => cases hf
  | cons a l =>
    injection hf with h
    exact h ▸ List.mem_cons_self _ _

/-- Unpacking `find`: a hit is a child of the node and carries the tag. -/
theorem find_one_mem (h : Heap) (n : Nat) (tag : String) (w : Nat)
    (hf : find_one h n tag = some w) : w ∈ (h n).children ∧ (h w).tag = tag := by
  unfold find_one at hf
  have hmem := mem_of_head?_eq hf
  constructor
  · exact List.mem_of_mem_filter hmem
  · have := List.of_mem_filter hmem
    simpa using this

/-- Membership introduction for the flattened external-reference list. -/
theorem mem_foldr_append (f : Nat → List Nat) (ws : List Nat) (w r : Nat)
    (hw : w ∈ ws) (hr : r ∈ f w) :
    r ∈ ws.foldr (fun w2 acc => f w2 ++ acc) [] := by
  induction ws with
  | nil => cases hw
  | cons a ws ih =>
    rcases List.mem_cons.mp hw with rfl | hw2
    · exact List.mem_append.mpr (Or.inl hr)
    · exact List.mem_append.mpr (Or.inr (ih hw2))

/-- Appending a reference entry under an existing wrapper child keeps it
visible through the flattened external-reference listing. -/
theorem mem_ger_extrefs_add (g : Heap) (tn w r : Nat)
    (hwmem : w ∈ (g tn).children) (hwtag : (g w).tag = "externalReferences")
    (hwne : w ≠ tn) :
    r ∈ get_external_references (extrefs_add g w r) tn := by
  unfold get_external_references findall
  apply mem_foldr_append _ _ w
  · apply List.mem_filter.mpr
    constructor
    · rw [extrefs_add, hupd_other _ _ _ _ (Ne.symm hwne)]
      exact hwmem
    · rw [extrefs_add, hupd_same]
      simpa using hwtag
  · rw [extrefs_entries, extrefs_add, hupd_same]
    simp

/-- Attaching a reference to a term makes it visible through
`get_external_references`, whether or not the wrapper node already exists. -/
theorem mem_get_external_references_add (h : Heap) (tn r fresh : Nat)
    (hself : tn ∉ (h tn).children) (hf : fresh ≠ tn) :
    r ∈ get_external_references (cterm_add_external_reference h tn r fresh) tn := by
  cases hfind : find_one h tn "externalReferences" with
  | some w =>
    obtain ⟨hwmem, hwtag⟩ := find_one_mem h tn "externalReferences" w hfind
    have hwne : w ≠ tn := fun he => hself (he ▸ hwmem)
    have hrw : cterm_add_external_reference h tn r fresh = extrefs_add h w r := by
      unfold cterm_add_external_reference
      rw [hfind]
    rw [hrw]
    exact mem_ger_extrefs_add h tn w r hwmem hwtag hwne
  | none =>
    have htn : tn ≠ fresh := fun he => hf he.symm
    have hrw : cterm_add_external_reference h tn r fresh =
        extrefs_add
          (hupd (hupd h fresh { tag := "externalReferences", attrib := [], children := [] }) tn
            { (hupd h fresh { tag := "externalReferences", attrib := [], children := [] }) tn with
              children :=
                ((hupd h fresh
                  { tag := "externalReferences", attrib := [], children := [] }) tn).children
                    ++ [fresh] })
          fresh r := by
      unfold cterm_add_external_reference
      rw [hfind]
    rw [hrw]
    apply mem_ger_extrefs_add
    · rw [hupd_same]
      simp
    · rw [hupd_other _ _ _ _ hf, hupd_same]
    · exact hf

/-- C8: `Cterms.add_external_reference(term_id, ref)` with an unknown id
prints the warning and returns the state untouched (no exception); with a
known id it attaches the reference to the indexed term node so that the
reference shows up in that term's `get_external_references()`. -/
theorem claim_c8_add_external_reference :
    (∀ (s : CollState) (tid : String) (r fresh : Nat),
      alist_get s.idx (some tid) = none →
      cterms_add_external_reference s tid r fresh =
        (s, some (tid ++ " not in self.idx"))) ∧
    (∀ (s : CollState) (tid : String) (tn r fresh : Nat),
      alist_get s.idx (some tid) = some tn →
      tn ∉ (s.heap tn).children →
      fresh ≠ tn →
      r ∈ get_external_references
        (cterms_add_external_reference s tid r fresh).1.heap tn) := by
  constructor
  · intro s tid r fresh hmiss
    rw [cterms_add_external_reference, hmiss]
  · intro s tid tn r fresh hhit hself hf
    rw [cterms_add_external_reference, hhit]
    exact mem_get_external_references_add s.heap tn r fresh hself hf

/-- Witness for C8: on `S0`, adding a reference (node 7) to the existing
term `t1` makes it visible, and adding one to the unknown `t2` only prints
the warning. -/
theorem claim_c8_add_external_reference_witness :
    (alist_get S0.idx (some "t2") = none ∧
      cterms_add_external_reference S0 "t2" 7 8 = (S0, some ("t2" ++ " not in self.idx"))) ∧
    (alist_get S0.idx (some "t1") = some 1 ∧
      7 ∈ get_external_references (cterms_add_external_reference S0 "t1" 7 8).1.heap 1) :=
  ⟨⟨by decide, claim_c8_add_external_reference.1 S0 "t2" 7 8 (by decide)⟩,
    ⟨by decide,
      claim_c8_add_external_reference.2 S0 "t1" 1 7 8 (by decide) (by decide) (by decide)⟩⟩

/-- Keys after an insert-or-replace: the old keys plus the inserted key. -/
theorem alist_set_keys_mem [DecidableEq α] (d : List (α × β)) (k : α) (v : β) (x : α) :
    x ∈ (alist_set d k v).map Prod.fst ↔ x ∈ d.map Prod.fst ∨ x = k := by
  induction d with
  | nil => simp [alist_set]
  | cons p d ih =>
    by_cases hp : p.1 = k
    · simp only [alist_set, hp, if_true, List.map_cons, List.mem_cons]
      tauto
    · simp only [alist_set, hp, if_false, List.map_cons, List.mem_cons, ih]
      tauto

/-- Insert-or-replace preserves key uniqueness. -/
theorem alist_set_keys_nodup [DecidableEq α] (d : List (α × β)) (k : α) (v : β)
    (h : (d.map Prod.fst).Nodup) : ((alist_set d k v).map Prod.fst).Nodup := by
  induction d with
  | nil => simp [alist_set]
  | cons p d ih =>
    simp only [List.map_cons, List.nodup_cons] at h
    by_cases hp : p.1 = k
    · simp only [alist_set, hp, if_true, List.map_cons, List.nodup_cons]
      exact ⟨hp ▸ h.1, h.2⟩
    · simp only [alist_set, hp, if_false, List.map_cons, List.nodup_cons]
      refine ⟨?_, ih h.2⟩
      intro hmem
      rcases (alist_set_keys_mem d k v p.1).mp hmem with h1 | h2
      · exact h.1 h1
      · exact hp h2

/-- Success and effect of the conversion body when the read attribute is
present, the deleted attribute is the read one and differs from the written
one (the `to_kaf` situation), and the node's attribute keys are unique. -/
theorem conv1_ok (w r : String) (nd : NodeData)
    (hkeys : (nd.attrib.map Prod.fst).Nodup)
    (hrw : r ≠ w)
    (v : String) (hv : alist_get nd.attrib r = some v) :
    ∃ nd2, conv1 w r r nd = Except.ok nd2 ∧
      nd2.tag = nd.tag ∧ nd2.children = nd.children ∧
      alist_get nd2.attrib w = some v ∧
      alist_get nd2.attrib r = none := by
  have hset : alist_get (alist_set nd.attrib w v) r = some v := by
    rw [alist_get_set, if_neg hrw, hv]
  have hdel : (alist_del (alist_set nd.attrib w v) r).isSome = true := by
    rw [alist_del_isSome, hset]
    rfl
  cases hd : alist_del (alist_set nd.attrib w v) r with
  | none => rw [hd] at hdel; cases hdel
  | some a2 =>
    have hknd := alist_set_keys_nodup nd.attrib w v hkeys
    have hget := alist_del_get _ _ _ hknd hd
    refine ⟨{ nd with attrib := a2 }, ?_, rfl, rfl, ?_, ?_⟩
    · unfold conv1
      rw [hv]
      show (match alist_del (alist_set nd.attrib w v) r with
        | none => Except.error "KeyError"
        | some a2 => Except.ok { nd with attrib := a2 }) = Except.ok { nd with attrib := a2 }
      rw [hd]
    · show alist_get a2 w = some v
      rw [hget w, if_neg (fun he : w = r => hrw he.symm), alist_get_set, if_pos rfl]
    · show alist_get a2 r = none
      rw [hget r, if_pos rfl]

/-- Element-wise success of the conversion loop: with distinct nodes each of
which converts, the loop succeeds; each listed node ends up converted and
every other node is untouched. -/
theorem conv_nodes_ok (w r d : String) (l : List Nat) (h : Heap)
    (hnd : l.Nodup)
    (hc : ∀ n ∈ l, ∃ nd2, conv1 w r d (h n) = Except.ok nd2) :
    ∃ h2, conv_nodes w r d l h = Except.ok h2 ∧
      (∀ n ∈ l, conv1 w r d (h n) = Except.ok (h2 n)) ∧
      (∀ n, n ∉ l → h2 n = h n) := by
  induction l generalizing h with
  | nil => exact ⟨h, rfl, by simp, fun n _ => rfl⟩
  | cons n l ih =>
    obtain ⟨nd2, hnd2⟩ := hc n (List.mem_cons_self _ _)
    have hstep : conv_nodes w r d (n :: l) h = conv_nodes w r d l (hupd h n nd2) := by
      show (match conv1 w r d (h n) with
        | Except.error e => Except.error e
        | Except.ok nd3 => conv_nodes w r d l (hupd h n nd3)) = conv_nodes w r d l (hupd h n nd2)
      rw [hnd2]
    simp only [List.nodup_cons] at hnd
    have hc2 : ∀ m ∈ l, ∃ nd3, conv1 w r d ((hupd h n nd2) m) = Except.ok nd3 := by
      intro m hm
      rw [hupd_other _ _ _ _ (fun he : m = n => hnd.1 (he ▸ hm))]
      exact hc m (List.mem_cons_of_mem _ hm)
    obtain ⟨h2, hconv, hin, hout⟩ := ih (hupd h n nd2) hnd.2 hc2
    refine ⟨h2, hstep.trans hconv, ?_, ?_⟩
    · intro m hm
      rcases List.mem_cons.mp hm with rfl | hm2
      · rw [hout m hnd.1, hupd_same]
        exact hnd2
      · rw [← hupd_other h n nd2 m (fun he => hnd.1 (he ▸ hm2))]
        exact hin m hm2
    · intro m hm
      have hm1 : m ≠ n := fun he => hm (he ▸ List.mem_cons_self _ _)
      have hm2 : m ∉ l := fun he => hm (List.mem_cons_of_mem _ he)
      rw [hout m hm2, hupd_other _ _ _ _ hm1]

/-- C6: `to_kaf` is a no-op on a non-NAF collection; on a NAF collection it
flips the dialect to KAF and, on every matching child, moves the value of
the NAF id attribute to the KAF attribute name and deletes the NAF one;
afterwards every indexed id still resolves through `get_child` to a view
whose `get_id` (now under KAF) equals that id. -/
theorem claim_c6_to_kaf :
    (∀ (cfg : LayerClass) (s : CollState), s.type ≠ "NAF" → to_kaf cfg s = Except.ok s) ∧
    (∀ (cfg : LayerClass) (s : CollState) (s2 : CollState),
      s.type = "NAF" →
      cfg.cls.naf_identifier ≠ cfg.cls.kaf_identifier →
      cfg.cls.kaf_identifier = cfg.child_cls.kaf_identifier →
      (child_nodes cfg s.heap s.root).Nodup →
      (∀ n ∈ child_nodes cfg s.heap s.root,
        ((s.heap n).attrib.map Prod.fst).Nodup ∧
        (alist_get (s.heap n).attrib cfg.cls.naf_identifier).isSome = true) →
      to_kaf cfg s = Except.ok s2 →
      s2.type = "KAF" ∧ s2.root = s.root ∧ s2.idx = s.idx ∧
      (∀ n ∈ child_nodes cfg s.heap s.root,
        alist_get (s2.heap n).attrib cfg.cls.kaf_identifier
          = alist_get (s.heap n).attrib cfg.cls.naf_identifier ∧
        alist_get (s2.heap n).attrib cfg.cls.naf_identifier = none) ∧
      (∀ n, n ∉ child_nodes cfg s.heap s.root → s2.heap n = s.heap n) ∧
      (∀ (i : String) (nid : Nat),
        alist_get s.idx (some i) = some nid →
        nid ∈ child_nodes cfg s.heap s.root →
        alist_get (s.heap nid).attrib cfg.cls.naf_identifier = some i →
        get_child cfg s2 i = some (child_view cfg nid "KAF") ∧
        elem_get_id s2.heap (child_view cfg nid "KAF") = some i)) := by
  constructor
  · intro cfg s hne
    unfold to_kaf
    rw [if_neg hne]
  · intro cfg s s2 htype hne hkafeq hnodup hok hres
    have hc : ∀ n ∈ child_nodes cfg s.heap s.root,
        ∃ nd2, conv1 cfg.cls.kaf_identifier cfg.cls.naf_identifier cfg.cls.naf_identifier
          (s.heap n) = Except.ok nd2 := by
      intro n hn
      obtain ⟨hk, hs⟩ := hok n hn
      cases hv : alist_get (s.heap n).attrib cfg.cls.naf_identifier with
      | none => rw [hv] at hs; cases hs
      | some v =>
        obtain ⟨nd2, hnd2, _⟩ := conv1_ok cfg.cls.kaf_identifier cfg.cls.naf_identifier
          (s.heap n) hk hne v hv
        exact ⟨nd2, hnd2⟩
    obtain ⟨h2, hconv, hin, hout⟩ := conv_nodes_ok cfg.cls.kaf_identifier
      cfg.cls.naf_identifier cfg.cls.naf_identifier (child_nodes cfg s.heap s.root)
      s.heap hnodup hc
    have hres2 : to_kaf cfg s = Except.ok { s with type := "KAF", heap := h2 } := by
      unfold to_kaf
      rw [if_pos htype, hconv]
    rw [hres2] at hres
    simp only [Except.ok.injEq] at hres
    subst hres
    have hchild : ∀ n ∈ child_nodes cfg s.heap s.root,
        alist_get (h2 n).attrib cfg.cls.kaf_identifier
          = alist_get (s.heap n).attrib cfg.cls.naf_identifier ∧
        alist_get (h2 n).attrib cfg.cls.naf_identifier = none := by
      intro n hn
      obtain ⟨hk, hs⟩ := hok n hn
      cases hv : alist_get (s.heap n).attrib cfg.cls.naf_identifier with
      | none => rw [hv] at hs; cases hs
      | some v =>
        obtain ⟨nd2, hnd2, _, _, hw, hr⟩ := conv1_ok cfg.cls.kaf_identifier
          cfg.cls.naf_identifier (s.heap n) hk hne v hv
        have heq : nd2 = h2 n := Except.ok.inj (hnd2.symm.trans (hin n hn))
        rw [← heq]
        exact ⟨hw, hr⟩
    refine ⟨rfl, rfl, rfl, hchild, hout, ?_⟩
    intro i nid hidx hmem hid
    constructor
    · show get_child cfg { s with type := "KAF", heap := h2 } i = _
      rw [get_child]
      show (match alist_get s.idx (some i) with
        | some n => some (child_view cfg n "KAF")
        | none => none) = some (child_view cfg nid "KAF")
      rw [hidx]
    · show elem_get_id h2 (ElemV.mk cfg.child_cls nid "KAF") = some i
      rw [elem_get_id_kaf, ← hkafeq, (hchild nid hmem).1, hid]

/-- The term layer over `H0` constructed directly in the KAF dialect. -/
def SKAF : CollState := mkCollection testCfg H0 0 "KAF"

/-- The result of `to_kaf` on `S0`: dialect KAF, the term node's id moved
from `id` to `tid`, index untouched. -/
def S0kaf : CollState :=
  { heap := hupd H0 1 { tag := "term", attrib := [("lemma", "run"), ("tid", "t1")], children := [] },
    root := 0, type := "KAF", idx := [(some "t1", 1)] }

/-- Witness for C6: the no-op branch on the KAF-dialect `SKAF`, and the
conversion of `S0` into `S0kaf` with all the claimed effects at the term
node 1 and id `t1`. -/
theorem claim_c6_to_kaf_witness :
    to_kaf testCfg SKAF = Except.ok SKAF ∧
    (alist_get (S0kaf.heap 1).attrib "tid" = alist_get (S0.heap 1).attrib "id" ∧
      alist_get (S0kaf.heap 1).attrib "id" = none ∧
      get_child testCfg S0kaf "t1" = some (child_view testCfg 1 "KAF") ∧
      elem_get_id S0kaf.heap (child_view testCfg 1 "KAF") = some "t1") :=
  ⟨claim_c6_to_kaf.1 testCfg SKAF (by decide),
    by
      have hmain := claim_c6_to_kaf.2 testCfg S0 S0kaf (by decide) (by decide) (by decide)
        (by decide) (by decide) (by rfl)
      have hnode := hmain.2.2.2.1 1 (by decide)
      have hlook := hmain.2.2.2.2.2 "t1" 1 (by decide) (by decide) (by decide)
      exact ⟨hnode.1, hnode.2, hlook.1, hlook.2⟩⟩

/-- A sequence of `add_child` calls, stopping at the first failure. -/
def add_children_seq (s : CollState) : List ElemV → Except String CollState
  | [] => Except.ok s
  | c :: cs =>
    match add_child s c with
    | Except.error e => Except.error e
    | Except.ok s2 => add_children_seq s2 cs

/-- Looking up an id among freshly built index pairs with distinct ids finds
the paired node. -/
theorem alist_get_pairs (cs : List (Nat × String)) (hnd : (cs.map Prod.snd).Nodup)
    (p : Nat × String) (hp : p ∈ cs) :
    alist_get (cs.map (fun q => (some q.2, q.1))) (some p.2) = some p.1 := by
  induction cs with
  | nil => cases hp
  | cons q cs ih =>
    simp only [List.map_cons, List.nodup_cons] at hnd
    rcases List.mem_cons.mp hp with rfl | hp2
    · simp [alist_get]
    · have hne : ¬(some q.2 = some p.2) := by
        intro he
        injection he with he2
        exact hnd.1 (he2 ▸ List.mem_map_of_mem _ hp2)
      rw [List.map_cons, alist_get_cons, if_neg hne]
      exact ih hnd.2 hp2

/-- Effect of a run of successful `add_child` calls on fresh, pairwise
distinct entities: the container gains the nodes in order and the index
gains the corresponding pairs in order. -/
theorem add_children_seq_effect (cfg : LayerClass) :
    ∀ (cs : List (Nat × String)) (s : CollState),
    s.type = "NAF" →
    (∀ p ∈ cs, (s.heap p.1).tag = cfg.child_element_name
      ∧ alist_get (s.heap p.1).attrib cfg.child_cls.naf_identifier = some p.2
      ∧ p.1 ≠ s.root) →
    (cs.map Prod.snd).Nodup →
    (cs.map Prod.fst).Nodup →
    (∀ p ∈ cs, alist_get s.idx (some p.2) = none) →
    (∀ p ∈ cs, p.1 ∉ (s.heap s.root).children) →
    ∃ s2, add_children_seq s (cs.map (fun p => ElemV.mk cfg.child_cls p.1 "NAF"))
        = Except.ok s2 ∧
      s2.type = "NAF" ∧ s2.root = s.root ∧
      (∀ m, m ≠ s.root → s2.heap m = s.heap m) ∧
      (s2.heap s.root).children = (s.heap s.root).children ++ cs.map Prod.fst ∧
      (s2.heap s.root).tag = (s.heap s.root).tag ∧
      s2.idx = s.idx ++ cs.map (fun p => (some p.2, p.1)) := by
  intro cs
  induction cs with
  | nil =>
    intro s htype _ _ _ _ _
    exact ⟨s, rfl, htype, rfl, fun m _ => rfl, by simp, rfl, by simp⟩
  | cons p cs ih =>
    intro s htype hprops hnd2 hnd1 hfresh hnotin
    obtain ⟨htag, hid, hnroot⟩ := hprops p (List.mem_cons_self _ _)
    simp only [List.map_cons, List.nodup_cons] at hnd1 hnd2
    have hkey : elem_get_id s.heap (ElemV.mk cfg.child_cls p.1 "NAF") = some p.2 := by
      rw [elem_get_id_naf]
      exact hid
    have hcond : alist_mem s.idx (elem_get_id s.heap (ElemV.mk cfg.child_cls p.1 "NAF"))
        = false := by
      rw [alist_mem, hkey, hfresh p (List.mem_cons_self _ _)]
      rfl
    have hadd : add_child s (ElemV.mk cfg.child_cls p.1 "NAF") = Except.ok
        { s with
          heap := hupd s.heap s.root
            { s.heap s.root with children := (s.heap s.root).children ++ [p.1] },
          idx := alist_set s.idx
            (elem_get_id
              (hupd s.heap s.root
                { s.heap s.root with children := (s.heap s.root).children ++ [p.1] })
              (ElemV.mk cfg.child_cls p.1 "NAF")) p.1 } := by
      unfold add_child
      simp only [hcond, Bool.false_eq_true, if_false]
    have hkey1 : elem_get_id
        (hupd s.heap s.root
          { s.heap s.root with children := (s.heap s.root).children ++ [p.1] })
        (ElemV.mk cfg.child_cls p.1 "NAF") = some p.2 := by
      rw [elem_get_id_hupd _ _ _ _ hnroot]
      exact hkey
    have hidx1 : alist_set s.idx
        (elem_get_id
          (hupd s.heap s.root
            { s.heap s.root with children := (s.heap s.root).children ++ [p.1] })
          (ElemV.mk cfg.child_cls p.1 "NAF")) p.1
        = s.idx ++ [(some p.2, p.1)] := by
      rw [hkey1, alist_set_fresh _ _ _ (hfresh p (List.mem_cons_self _ _))]
    set s1 : CollState :=
      { s with
        heap := hupd s.heap s.root
          { s.heap s.root with children := (s.heap s.root).children ++ [p.1] },
        idx := alist_set s.idx
          (elem_get_id
            (hupd s.heap s.root
              { s.heap s.root with children := (s.heap s.root).children ++ [p.1] })
            (ElemV.mk cfg.child_cls p.1 "NAF")) p.1 } with hs1
    have hs1heap : ∀ m, m ≠ s.root → s1.heap m = s.heap m := by
      intro m hm
      rw [hs1]
      exact hupd_other _ _ _ _ hm
    have hs1children : (s1.heap s.root).children = (s.heap s.root).children ++ [p.1] := by
      show (hupd s.heap s.root
        { s.heap s.root with children := (s.heap s.root).children ++ [p.1] } s.root).children
        = (s.heap s.root).children ++ [p.1]
      rw [hupd_same]
    have hs1tag : (s1.heap s.root).tag = (s.heap s.root).tag := by
      show (hupd s.heap s.root
        { s.heap s.root with children := (s.heap s.root).children ++ [p.1] } s.root).tag
        = (s.heap s.root).tag
      rw [hupd_same]
    have hs1idx : s1.idx = s.idx ++ [(some p.2, p.1)] := hidx1
    obtain ⟨s2, hseq2, htype2, hroot2, hheap2, hchildren2, htag2, hidx2⟩ :=
      ih s1 htype
        (by
          intro q hq
          obtain ⟨ht, hi, hr⟩ := hprops q (List.mem_cons_of_mem _ hq)
          have hq1 : q.1 ≠ s.root := hr
          rw [hs1heap q.1 hq1]
          exact ⟨ht, hi, hq1⟩)
        hnd2.2 hnd1.2
        (by
          intro q hq
          rw [hs1idx, alist_get_append, hfresh q (List.mem_cons_of_mem _ hq)]
          have hne : ¬(some p.2 = some q.2) := by
            intro he
            injection he with he2
            exact hnd2.1 (he2 ▸ List.mem_map_of_mem _ hq)
          simp [alist_get, hne])
        (by
          intro q hq
          rw [hs1children]
          intro hmem
          rcases List.mem_append.mp hmem with h1 | h2
          · exact hnotin q (List.mem_cons_of_mem _ hq) h1
          · have : q.1 = p.1 := by simpa using h2
            exact hnd1.1 (this ▸ List.mem_map_of_mem _ hq))
    have hseq : add_children_seq s
        ((p :: cs).map (fun q => ElemV.mk cfg.child_cls q.1 "NAF"))
        = add_children_seq s1 (cs.map (fun q => ElemV.mk cfg.child_cls q.1 "NAF")) := by
      show (match add_child s (ElemV.mk cfg.child_cls p.1 "NAF") with
        | Except.error e => Except.error e
        | Except.ok s3 =>
          add_children_seq s3 (cs.map (fun q => ElemV.mk cfg.child_cls q.1 "NAF")))
        = add_children_seq s1 (cs.map (fun q => ElemV.mk cfg.child_cls q.1 "NAF"))
      rw [hadd]
    refine ⟨s2, hseq.trans hseq2, htype2, hroot2.trans rfl, ?_, ?_, ?_, ?_⟩
    · intro m hm
      rw [hheap2 m (by rw [show s1.root = s.root from rfl]; exact hm), hs1heap m hm]
    · rw [show s1.root = s.root from rfl] at hchildren2
      rw [hchildren2, hs1children, List.append_assoc]
      rfl
    · rw [show s1.root = s.root from rfl] at htag2
      rw [htag2, hs1tag]
    · rw [hidx2, hs1idx, List.append_assoc]
      rfl

/-- C4: starting from a collection over an empty container (dialect NAF),
any run of `add_child` calls on entities with pairwise distinct ids (and
pairwise distinct nodes, each tagged as a matching child) succeeds; then
`get_child(i)` returns a view over the right node whose `get_id()` is `i`
for every added id `i`, and iterating the collection yields exactly the
added entities in append order. -/
theorem claim_c4_add_sequence (cfg : LayerClass) (h : Heap) (root : Nat)
    (cs : List (Nat × String)) (s2 : CollState)
    (hempty : (h root).children = [])
    (hprops : ∀ p ∈ cs, (h p.1).tag = cfg.child_element_name
      ∧ alist_get (h p.1).attrib cfg.child_cls.naf_identifier = some p.2
      ∧ p.1 ≠ root)
    (hnd2 : (cs.map Prod.snd).Nodup)
    (hnd1 : (cs.map Prod.fst).Nodup)
    (hseq : add_children_seq (mkCollection cfg h root "NAF")
      (cs.map (fun p => ElemV.mk cfg.child_cls p.1 "NAF")) = Except.ok s2) :
    (∀ p ∈ cs,
      get_child cfg s2 p.2 = some (ElemV.mk cfg.child_cls p.1 "NAF") ∧
      elem_get_id s2.heap (ElemV.mk cfg.child_cls p.1 "NAF") = some p.2) ∧
    coll_iter cfg s2 = cs.map (fun p => ElemV.mk cfg.child_cls p.1 "NAF") := by
  have hidx0 : (mkCollection cfg h root "NAF").idx = [] := by
    show (child_nodes cfg h root).foldl _ [] = []
    unfold child_nodes findall
    rw [hempty]
    rfl
  obtain ⟨s3, hseq3, htype3, hroot3, hheap3, hchildren3, htag3, hidx3⟩ :=
    add_children_seq_effect cfg cs (mkCollection cfg h root "NAF") rfl hprops hnd2 hnd1
      (by
        intro p hp
        rw [hidx0]
        rfl)
      (by
        intro p hp
        show p.1 ∉ (h root).children
        rw [hempty]
        simp)
  have hsame : s3 = s2 := Except.ok.inj (hseq3.symm.trans hseq)
  subst hsame
  have hidx4 : s3.idx = cs.map (fun p => (some p.2, p.1)) := by
    have h4 : s3.idx = [] ++ cs.map (fun p => (some p.2, p.1)) := by
      rw [hidx3, hidx0]
    simpa using h4
  have hheap4 : ∀ p ∈ cs, s3.heap p.1 = h p.1 := by
    intro p hp
    exact hheap3 p.1 (hprops p hp).2.2
  have hchildren4 : (s3.heap root).children = cs.map Prod.fst := by
    have h4 : (s3.heap root).children = (h root).children ++ cs.map Prod.fst := hchildren3
    rw [hempty] at h4
    simpa using h4
  constructor
  · intro p hp
    constructor
    · have hlook : alist_get s3.idx (some p.2) = some p.1 := by
        rw [hidx4]
        exact alist_get_pairs cs hnd2 p hp
      show (match alist_get s3.idx (some p.2) with
        | some n => some (child_view cfg n s3.type)
        | none => none) = some (ElemV.mk cfg.child_cls p.1 "NAF")
      rw [hlook, htype3]
      rfl
    · rw [elem_get_id_naf, hheap4 p hp]
      exact (hprops p hp).2.1
  · unfold coll_iter child_nodes findall
    have hroot4 : s3.root = root := hroot3
    rw [hroot4, hchildren4]
    have hfilter : (cs.map Prod.fst).filter
        (fun c => decide ((s3.heap c).tag = cfg.child_element_name)) = cs.map Prod.fst := by
      apply List.filter_eq_self.mpr
      intro x hx
      obtain ⟨q, hq, rfl⟩ := List.mem_map.mp hx
      rw [hheap4 q hq]
      simp [(hprops q hq).1]
    rw [hfilter, htype3, List.map_map]
    rfl

/-- A document with an empty container (node 0) and detached term nodes 1
(id `t1`) and 2 (id `t2`). -/
def HC4 : Heap := fun n =>
  if n = 0 then { tag := "terms", attrib := [], children := [] }
  else if n = 1 then { tag := "term", attrib := [("id", "t1")], children := [] }
  else if n = 2 then { tag := "term", attrib := [("id", "t2")], children := [] }
  else { tag := "", attrib := [], children := [] }

/-- The term layer over the empty container of `HC4`, dialect NAF. -/
def SC4 : CollState := mkCollection testCfg HC4 0 "NAF"

/-- `SC4` after adding term node 1 (id `t1`). -/
def SC4a : CollState :=
  { heap := hupd HC4 0 { tag := "terms", attrib := [], children := [1] },
    root := 0, type := "NAF", idx := [(some "t1", 1)] }

/-- `SC4a` after adding term node 2 (id `t2`). -/
def SC4b : CollState :=
  { heap := hupd SC4a.heap 0 { tag := "terms", attrib := [], children := [1, 2] },
    root := 0, type := "NAF", idx := [(some "t1", 1), (some "t2", 2)] }

/-- Witness for C4: adding `t1` then `t2` to the empty layer; both resolve
through `get_child`/`get_id`, and iteration lists them in append order. -/
theorem claim_c4_add_sequence_witness :
    add_children_seq SC4 ([((1 : Nat), "t1"), (2, "t2")].map
      (fun p => ElemV.mk testCfg.child_cls p.1 "NAF")) = Except.ok SC4b ∧
    (get_child testCfg SC4b "t1" = some (ElemV.mk testCfg.child_cls 1 "NAF") ∧
      elem_get_id SC4b.heap (ElemV.mk testCfg.child_cls 1 "NAF") = some "t1") ∧
    (get_child testCfg SC4b "t2" = some (ElemV.mk testCfg.child_cls 2 "NAF") ∧
      elem_get_id SC4b.heap (ElemV.mk testCfg.child_cls 2 "NAF") = some "t2") ∧
    coll_iter testCfg SC4b =
      [ElemV.mk testCfg.child_cls 1 "NAF", ElemV.mk testCfg.child_cls 2 "NAF"] := by
  have hmain := claim_c4_add_sequence testCfg HC4 0 [((1 : Nat), "t1"), (2, "t2")] SC4b
    (by decide) (by decide) (by decide) (by decide) (by rfl)
  exact ⟨by rfl, hmain.1 (1, "t1") (by decide), hmain.1 (2, "t2") (by decide), hmain.2⟩

/-- Whether an element's id (under its own dialect) is one of the requested
ids; an element without an id never matches (`None in ids` is false). -/
def elem_id_in (s : CollState) (ids : List String) (c : ElemV) : Prop :=
  match elem_get_id s.heap c with
  | some i => i ∈ ids
  | none => False

instance elem_id_in_dec (s : CollState) (ids : List String) (c : ElemV) :
    Decidable (elem_id_in s ids c) :=
  match hv : elem_get_id s.heap c with
  | some i =>
    if hi : i ∈ ids then isTrue (by unfold elem_id_in; rw [hv]; exact hi)
    else isFalse (by unfold elem_id_in; rw [hv]; exact hi)
  | none => isFalse (by unfold elem_id_in; rw [hv]; exact id)

/-- The removal target set described by claim C5: a node goes away exactly
when it is a matching child with a requested id, or the previous sibling of
such a child. -/
def is_target (cfg : LayerClass) (s : CollState) (ids : List String) (x : Nat) : Prop :=
  (x ∈ child_nodes cfg s.heap s.root ∧ elem_id_in s ids (child_view cfg x s.type)) ∨
  (∃ m ∈ child_nodes cfg s.heap s.root,
    elem_id_in s ids (child_view cfg m s.type) ∧
    prevOf (s.heap s.root).children m = some x)

instance is_target_dec (cfg : LayerClass) (s : CollState) (ids : List String) (x : Nat) :
    Decidable (is_target cfg s ids x) := by
  unfold is_target
  infer_instance

/-- Membership in a set after `setAdd`. -/
theorem setAdd_mem (l : List Nat) (n x : Nat) : x ∈ setAdd l n ↔ x ∈ l ∨ x = n := by
  by_cases h : n ∈ l
  · simp only [setAdd, if_pos h]
    constructor
    · exact Or.inl
    · rintro (hx | rfl)
      exacts [hx, h]
  · simp [setAdd, h]

/-- `setAdd` keeps the set duplicate-free. -/
theorem setAdd_nodup (l : List Nat) (n : Nat) (h : l.Nodup) : (setAdd l n).Nodup := by
  by_cases hm : n ∈ l
  · simpa [setAdd, hm] using h
  · simp [setAdd, hm, List.nodup_append, h]

/-- Case equations for the collection step. -/
theorem ntr_step_eq_of_none (s : CollState) (ids : List String)
    (acc : List Nat) (c : ElemV) (hg : elem_get_id s.heap c = none) :
    ntr_step s ids acc c = acc := by
  unfold ntr_step
  rw [hg]

/-- Collection step when the id is present but not requested. -/
theorem ntr_step_eq_of_skip (s : CollState) (ids : List String)
    (acc : List Nat) (c : ElemV) (i : String) (hg : elem_get_id s.heap c = some i)
    (hi : i ∉ ids) : ntr_step s ids acc c = acc := by
  unfold ntr_step
  rw [hg]
  show (if i ∈ ids then
    (match prevOf (s.heap s.root).children c.nid with
      | some p => setAdd (setAdd acc c.nid) p
      | none => setAdd acc c.nid)
    else acc) = acc
  rw [if_neg hi]

/-- Collection step for a requested child with no previous sibling. -/
theorem ntr_step_eq_of_hit_noprev (s : CollState) (ids : List String)
    (acc : List Nat) (c : ElemV) (i : String) (hg : elem_get_id s.heap c = some i)
    (hi : i ∈ ids) (hp : prevOf (s.heap s.root).children c.nid = none) :
    ntr_step s ids acc c = setAdd acc c.nid := by
  unfold ntr_step
  rw [hg]
  show (if i ∈ ids then
    (match prevOf (s.heap s.root).children c.nid with
      | some p => setAdd (setAdd acc c.nid) p
      | none => setAdd acc c.nid)
    else acc) = setAdd acc c.nid
  rw [if_pos hi, hp]

/-- Collection step for a requested child with a previous sibling. -/
theorem ntr_step_eq_of_hit_prev (s : CollState) (ids : List String)
    (acc : List Nat) (c : ElemV) (i : String) (p : Nat)
    (hg : elem_get_id s.heap c = some i) (hi : i ∈ ids)
    (hp : prevOf (s.heap s.root).children c.nid = some p) :
    ntr_step s ids acc c = setAdd (setAdd acc c.nid) p := by
  unfold ntr_step
  rw [hg]
  show (if i ∈ ids then
    (match prevOf (s.heap s.root).children c.nid with
      | some p2 => setAdd (setAdd acc c.nid) p2
      | none => setAdd acc c.nid)
    else acc) = setAdd (setAdd acc c.nid) p
  rw [if_pos hi, hp]

/-- What one collection step contributes. -/
theorem ntr_step_mem (s : CollState) (ids : List String)
    (acc : List Nat) (c : ElemV) (x : Nat) :
    x ∈ ntr_step s ids acc c ↔
      x ∈ acc ∨ (elem_id_in s ids c ∧
        (x = c.nid ∨ prevOf (s.heap s.root).children c.nid = some x)) := by
  cases hg : elem_get_id s.heap c with
  | none =>
    have hid : ¬ elem_id_in s ids c := by
      unfold elem_id_in
      rw [hg]
      exact id
    rw [ntr_step_eq_of_none s ids acc c hg]
    simp [hid]
  | some i =>
    by_cases hi : i ∈ ids
    · have hid : elem_id_in s ids c := by
        unfold elem_id_in
        rw [hg]
        exact hi
      cases hp : prevOf (s.heap s.root).children c.nid with
      | none =>
        rw [ntr_step_eq_of_hit_noprev s ids acc c i hg hi hp, setAdd_mem]
        constructor
        · rintro (hx | rfl)
          · exact Or.inl hx
          · exact Or.inr ⟨hid, Or.inl rfl⟩
        · rintro (hx | ⟨_, rfl | hcon⟩)
          · exact Or.inl hx
          · exact Or.inr rfl
          · cases hcon
      | some p =>
        rw [ntr_step_eq_of_hit_prev s ids acc c i p hg hi hp, setAdd_mem, setAdd_mem]
        constructor
        · rintro ((hx | rfl) | rfl)
          · exact Or.inl hx
          · exact Or.inr ⟨hid, Or.inl rfl⟩
          · exact Or.inr ⟨hid, Or.inr rfl⟩
        · rintro (hx | ⟨_, rfl | hcon⟩)
          · exact Or.inl (Or.inl hx)
          · exact Or.inl (Or.inr rfl)
          · injection hcon with hcon2
            exact Or.inr hcon2.symm
    · have hid : ¬ elem_id_in s ids c := by
        unfold elem_id_in
        rw [hg]
        exact hi
      rw [ntr_step_eq_of_skip s ids acc c i hg hi]
      simp [hid]

/-- One collection step keeps the set duplicate-free. -/
theorem ntr_step_nodup (s : CollState) (ids : List String)
    (acc : List Nat) (c : ElemV) (h : acc.Nodup) : (ntr_step s ids acc c).Nodup := by
  cases hg : elem_get_id s.heap c with
  | none =>
    rw [ntr_step_eq_of_none s ids acc c hg]
    exact h
  | some i =>
    by_cases hi : i ∈ ids
    · cases hp : prevOf (s.heap s.root).children c.nid with
      | none =>
        rw [ntr_step_eq_of_hit_noprev s ids acc c i hg hi hp]
        exact setAdd_nodup _ _ h
      | some p =>
        rw [ntr_step_eq_of_hit_prev s ids acc c i p hg hi hp]
        exact setAdd_nodup _ _ (setAdd_nodup _ _ h)
    · rw [ntr_step_eq_of_skip s ids acc c i hg hi]
      exact h

/-- Membership in the folded collection set. -/
theorem foldl_ntr_mem (s : CollState) (ids : List String) :
    ∀ (l : List ElemV) (acc : List Nat) (x : Nat),
    x ∈ l.foldl (ntr_step s ids) acc ↔
      x ∈ acc ∨ ∃ c ∈ l, elem_id_in s ids c ∧
        (x = c.nid ∨ prevOf (s.heap s.root).children c.nid = some x) := by
  intro l
  induction l with
  | nil => intro acc x; simp
  | cons c l ih =>
    intro acc x
    rw [List.foldl_cons, ih, ntr_step_mem]
    constructor
    · rintro ((hx | hc) | ⟨c2, hc2, hrest⟩)
      · exact Or.inl hx
      · exact Or.inr ⟨c, List.mem_cons_self _ _, hc⟩
      · exact Or.inr ⟨c2, List.mem_cons_of_mem _ hc2, hrest⟩
    · rintro (hx | ⟨c2, hc2, hrest⟩)
      · exact Or.inl (Or.inl hx)
      · rcases List.mem_cons.mp hc2 with rfl | hc3
        · exact Or.inl (Or.inr hrest)
        · exact Or.inr ⟨c2, hc3, hrest⟩

/-- The folded collection set is duplicate-free. -/
theorem foldl_ntr_nodup (s : CollState) (ids : List String) :
    ∀ (l : List ElemV) (acc : List Nat), acc.Nodup →
      (l.foldl (ntr_step s ids) acc).Nodup := by
  intro l
  induction l with
  | nil => intro acc h; exact h
  | cons c l ih =>
    intro acc h
    exact ih _ (ntr_step_nodup s ids acc c h)

/-- A previous sibling is itself one of the siblings. -/
theorem prevAux_mem (a : Nat) (l : List Nat) (x p : Nat)
    (h : prevAux a l x = some p) : p = a ∨ p ∈ l := by
  induction l generalizing a with
  | nil => cases h
  | cons b l ih =>
    by_cases hb : b = x
    · rw [prevAux, if_pos hb] at h
      injection h with h2
      exact Or.inl h2.symm
    · rw [prevAux, if_neg hb] at h
      rcases ih b h with rfl | hp
      · exact Or.inr (List.mem_cons_self _ _)
      · exact Or.inr (List.mem_cons_of_mem _ hp)

/-- A previous sibling is a current child. -/
theorem prevOf_mem (l : List Nat) (x p : Nat) (h : prevOf l x = some p) : p ∈ l := by
  cases l with
  | nil => cases h
  | cons a l =>
    rcases prevAux_mem a l x p h with rfl | hp
    · exact List.mem_cons_self _ _
    · exact List.mem_cons_of_mem _ hp

/-- The collected set is exactly the C5 target set. -/
theorem mem_nodes_to_remove (cfg : LayerClass) (s : CollState) (ids : List String)
    (x : Nat) : x ∈ nodes_to_remove cfg s ids ↔ is_target cfg s ids x := by
  unfold nodes_to_remove coll_iter is_target
  rw [foldl_ntr_mem]
  simp only [List.not_mem_nil, false_or]
  constructor
  · rintro ⟨c, hc, hid, hx⟩
    obtain ⟨m, hm, rfl⟩ := List.mem_map.mp hc
    rcases hx with heq | hprev
    · exact Or.inl ⟨heq ▸ hm, heq ▸ hid⟩
    · exact Or.inr ⟨m, hm, hid, hprev⟩
  · rintro (⟨hmem, hid⟩ | ⟨m, hm, hid, hprev⟩)
    · exact ⟨child_view cfg x s.type, List.mem_map_of_mem _ hmem, hid, Or.inl rfl⟩
    · exact ⟨child_view cfg m s.type, List.mem_map_of_mem _ hm, hid, Or.inr hprev⟩

/-- The removal loop on a duplicate-free child list and a duplicate-free
set of current children never raises and removes exactly the set. -/
theorem remove_all_ok (tr : List Nat) :
    ∀ (children : List Nat), children.Nodup → tr.Nodup →
    (∀ x ∈ tr, x ∈ children) →
    remove_all children tr = Except.ok (children.filter (fun n => decide (n ∉ tr))) := by
  induction tr with
  | nil =>
    intro children _ _ _
    unfold remove_all
    rw [List.filter_eq_self.mpr]
    intro a _
    simp
  | cons n tr ih =>
    intro children hndc hndt hsub
    have hn : n ∈ children := hsub n (List.mem_cons_self _ _)
    simp only [List.nodup_cons] at hndt
    unfold remove_all
    rw [if_pos hn]
    rw [ih (children.erase n) (hndc.erase n) hndt.2
      (by
        intro x hx
        have hxn : x ≠ n := fun he => hndt.1 (he ▸ hx)
        exact (List.mem_erase_of_ne hxn).mpr (hsub x (List.mem_cons_of_mem _ hx)))]
    rw [hndc.erase_eq_filter n, List.filter_filter]
    congr 1
    apply List.filter_congr
    intro a _
    by_cases h1 : a = n
    · simp [h1]
    · by_cases h2 : a ∈ tr <;> simp [h1, h2]

/-- The state `remove_children(ids)` produces: the container keeps exactly
the children outside the target set; heap elsewhere, root, dialect and
index are untouched. -/
def removed_state (cfg : LayerClass) (s : CollState) (ids : List String) : CollState :=
  { s with
    heap := hupd s.heap s.root
      { s.heap s.root with
        children := (s.heap s.root).children.filter
          (fun n => decide (¬ is_target cfg s ids n)) } }

/-- C5: `remove_children(ids)` never fails: it removes from the container
exactly the matching children whose id is in `ids` together with each such
child, when one exists, its previous sibling (a child with no previous
sibling loses only itself); absent ids are silently ignored; the set-based
collection means an overlap between a requested child and the previous
sibling of another child is removed only once (no `ValueError`); nothing
else — heap elsewhere, root, dialect, index — changes. -/
theorem claim_c5_remove_children (cfg : LayerClass) (s : CollState) (ids : List String)
    (hnd : (s.heap s.root).children.Nodup) :
    remove_children cfg s ids = Except.ok (removed_state cfg s ids) := by
  have hsub : ∀ x ∈ nodes_to_remove cfg s ids, x ∈ (s.heap s.root).children := by
    intro x hx
    rw [mem_nodes_to_remove] at hx
    rcases hx with ⟨hmem, _⟩ | ⟨m, _, _, hprev⟩
    · unfold child_nodes findall at hmem
      exact List.mem_of_mem_filter hmem
    · exact prevOf_mem _ _ _ hprev
  have hndt : (nodes_to_remove cfg s ids).Nodup :=
    foldl_ntr_nodup s ids (coll_iter cfg s) [] List.nodup_nil
  have hok := remove_all_ok (nodes_to_remove cfg s ids) (s.heap s.root).children
    hnd hndt hsub
  have hfilter : (s.heap s.root).children.filter
      (fun n => decide (n ∉ nodes_to_remove cfg s ids))
      = (s.heap s.root).children.filter (fun n => decide (¬ is_target cfg s ids n)) := by
    apply List.filter_congr
    intro n _
    rw [decide_eq_decide]
    exact not_congr (mem_nodes_to_remove cfg s ids n)
  rw [hfilter] at hok
  unfold remove_children removed_state
  rw [hok]

/-- A document whose container (node 0) holds, in order: a comment node 10,
then term nodes 1 (`t1`), 2 (`t2`) and 3 (`t3`). -/
def HC5 : Heap := fun n =>
  if n = 0 then { tag := "terms", attrib := [], children := [10, 1, 2, 3] }
  else if n = 1 then { tag := "term", attrib := [("id", "t1")], children := [] }
  else if n = 2 then { tag := "term", attrib := [("id", "t2")], children := [] }
  else if n = 3 then { tag := "term", attrib := [("id", "t3")], children := [] }
  else if n = 10 then { tag := "comment", attrib := [], children := [] }
  else { tag := "", attrib := [], children := [] }

/-- The term layer over `HC5`, dialect NAF. -/
def SC5 : CollState := mkCollection testCfg HC5 0 "NAF"

/-- Witness for C5, on `SC5`: removing `t1` also removes the preceding
comment 10; removing `t3` also removes its previous sibling (term 2);
an id that matches nothing leaves all children in place; and on `S0`
(whose only term has no previous sibling) only that term goes away. -/
theorem claim_c5_remove_children_witness :
    ((HC5 0).children.Nodup ∧
      remove_children testCfg SC5 ["t1"] = Except.ok (removed_state testCfg SC5 ["t1"]) ∧
      ((removed_state testCfg SC5 ["t1"]).heap 0).children = [2, 3]) ∧
    (remove_children testCfg SC5 ["t3"] = Except.ok (removed_state testCfg SC5 ["t3"]) ∧
      ((removed_state testCfg SC5 ["t3"]).heap 0).children = [10, 1]) ∧
    (remove_children testCfg SC5 ["tX"] = Except.ok (removed_state testCfg SC5 ["tX"]) ∧
      ((removed_state testCfg SC5 ["tX"]).heap 0).children = [10, 1, 2, 3]) ∧
    (remove_children testCfg S0 ["t1"] = Except.ok (removed_state testCfg S0 ["t1"]) ∧
      ((removed_state testCfg S0 ["t1"]).heap 0).children = []) :=
  ⟨⟨by decide, claim_c5_remove_children testCfg SC5 ["t1"] (by decide), by decide⟩,
    ⟨claim_c5_remove_children testCfg SC5 ["t3"] (by decide), by decide⟩,
    ⟨claim_c5_remove_children testCfg SC5 ["tX"] (by decide), by decide⟩,
    ⟨claim_c5_remove_children testCfg S0 ["t1"] (by decide), by decide⟩⟩

end KafNaf
